import Mathlib

/-!
Verification development for the seq2seq training core (`src/seq2seq.py`).

Modelling conventions:
* numpy arrays are lists of rationals (a batch is a list of rows, a time
  sequence is a list of vectors);
* the scalar nonlinearities (tanh, sigmoid, exp, log), the square root used
  by the initializer scaling, the dtype cast, and the random number source
  are abstract parameters, since none of the verified properties depend on
  their numeric values;
* the parameter dictionary is an association list with most-recent-first
  lookup, which reproduces the overwrite semantics of a Python dict; the
  formatted string keys of the source (`"Wx_%d_enc"` and so on) are
  represented by a structured key type in bijection with them;
* the batch dimension of every numpy primitive acts row-wise, so batched
  operations are modelled as maps of per-row functions over the list of rows.

The layer primitives (`word_embedding_*`, `recurrent_*`, `lstm_*`,
`temporal_attention_*`, `temporal_affine_*`, `temporal_cross_entropy_loss`)
come from the `layers` module, which is not part of the repository snapshot;
they are modelled from the specification (sections 4.2 to 4.8).
-/

namespace Seq2Seq

abbrev Vec := List ℚ
abbrev Mat := List (List ℚ)

/-- Abstract scalar primitives of the numeric layer.  `tanh`, `sigm`, `exp`
and `log` are the nonlinearities, `sqrt` is used only for the fan-in scaling
of the initializer, `cast` models the dtype conversion of `astype`. -/
structure Prims where
  tanh : ℚ → ℚ
  sigm : ℚ → ℚ
  exp : ℚ → ℚ
  log : ℚ → ℚ
  sqrt : ℚ → ℚ
  cast : ℚ → ℚ

def zerosV (n : Nat) : Vec := List.replicate n 0

def vadd (x y : Vec) : Vec := List.zipWith (· + ·) x y

def vmul (x y : Vec) : Vec := List.zipWith (· * ·) x y

def smul (c : ℚ) (x : Vec) : Vec := x.map (fun a => c * a)

def dot (x y : Vec) : ℚ := (List.zipWith (· * ·) x y).sum

/-- Row-vector times matrix, `x · W`; `W` is stored as a list of rows. -/
def vecMat (x : Vec) (W : Mat) : Vec := W.transpose.map (fun col => dot x col)

def zerosLike (M : Mat) : Mat := M.map (fun r => r.map (fun _ => 0))

def matAdd (A B : Mat) : Mat := List.zipWith vadd A B

def outerProd (x d : Vec) : Mat := x.map (fun xi => d.map (fun dj => xi * dj))

def vsum (H : Nat) (l : List Vec) : Vec := l.foldr vadd (zerosV H)

/-- Final-timestep vector of a state sequence, `h[:, -1, :]` per row. -/
def lastVec (l : List Vec) : Vec := l.getLastD []

/-- In-place accumulation into the final timestep, `dh[:, -1, :] += v` per row. -/
def addToLast (l : List Vec) (v : Vec) : List Vec :=
  l.set (l.length - 1) (vadd (l.getLastD []) v)

def colsOf (M : Mat) : Nat := (M.headD []).length

def mkMat (g : Nat → Nat → ℚ) (r c : Nat) : Mat :=
  (List.range r).map (fun i => (List.range c).map (fun j => g i j))

inductive Dir
  | enc
  | dec
deriving DecidableEq

/-- Structured form of the formatted string keys of `self.params`:
`wEmbed d` is `"W_embed_enc"` and `"W_embed_dec"`, `wx i d` is `"Wx_%d_enc"`
and `"Wx_%d_dec"`, likewise `wh` and `bias`, and `wOut` and `bOut` are
`"W_out_dec"` and `"b_out_dec"`. -/
inductive PKey
  | wEmbed (d : Dir)
  | wx (i : Nat) (d : Dir)
  | wh (i : Nat) (d : Dir)
  | bias (i : Nat) (d : Dir)
  | wOut
  | bOut
deriving DecidableEq

inductive Tensor
  | v (x : Vec)
  | m (A : Mat)
deriving DecidableEq

abbrev Params := List (PKey × Tensor)

/-- Dictionary write: the new binding shadows any previous one. -/
def pset (ps : Params) (k : PKey) (t : Tensor) : Params := (k, t) :: ps

/-- Dictionary read: most recent binding wins. -/
def pget (ps : Params) (k : PKey) : Option Tensor :=
  (ps.find? (fun kv => decide (kv.1 = k))).map (fun kv => kv.2)

def tcast (c : ℚ → ℚ) : Tensor → Tensor
  | .v x => .v (x.map c)
  | .m A => .m (A.map (fun r => r.map c))

/-- Translation of the dict lookup on line 62 of `seq2seq.py`,
`dim_mul` is 4 for `"lstm"` and 1 for `"rnn"`, and the lookup raises a
`KeyError` (modelled as `none`) for every other string. -/
def dimMul (cellType : String) : Option Nat :=
  if cellType = "lstm" then some 4 else if cellType = "rnn" then some 1 else none

/-- Translation of `np.random.randn(r, c) / np.sqrt(r)`: a matrix of shape
`(r, c)` of abstract random draws scaled by the inverse square root of the
fan-in (the row count in every call site of the source). -/
def randn (pr : Prims) (rnd : PKey → Nat → Nat → ℚ) (k : PKey) (r c : Nat) : Mat :=
  mkMat (fun i j => rnd k i j / pr.sqrt (r : ℚ)) r c

structure Config where
  srcSeqLen : Nat
  srcVocabSize : Nat
  srcEmbedDim : Nat
  trgSeqLen : Nat
  trgVocabSize : Nat
  trgEmbedDim : Nat
  hiddenDim : Nat
  nullIdx : Nat
  startIdx : Nat
  endIdx : Nat
  attention : Bool
  nLayers : Int
  cellType : String
deriving DecidableEq

/-- Body of the per-layer initialization loop (lines 63 to 70 of the source):
six tensors per layer index. -/
def initLayerParams (pr : Prims) (rnd : PKey → Nat → Nat → ℚ) (hiddenDim m : Nat)
    (ps : Params) (i : Nat) : Params :=
  let ps := pset ps (.wx i .enc) (.m (randn pr rnd (.wx i .enc) hiddenDim (m * hiddenDim)))
  let ps := pset ps (.wh i .enc) (.m (randn pr rnd (.wh i .enc) hiddenDim (m * hiddenDim)))
  let ps := pset ps (.bias i .enc) (.v (zerosV (m * hiddenDim)))
  let ps := pset ps (.wx i .dec) (.m (randn pr rnd (.wx i .dec) hiddenDim (m * hiddenDim)))
  let ps := pset ps (.wh i .dec) (.m (randn pr rnd (.wh i .dec) hiddenDim (m * hiddenDim)))
  let ps := pset ps (.bias i .dec) (.v (zerosV (m * hiddenDim)))
  ps

/-- Translation of `Seq2Seq.__init__`.  The embedding matrices are created
first (lines 59 to 60), then the `dim_mul` dict lookup runs (line 62, a
`KeyError`, hence `none`, on an unsupported cell type), then the per-layer
loop, the layer-0 input-weight overwrites (lines 72 to 73), the output
projection whose input width doubles under attention (lines 75 to 77), and
finally the `astype` cast loop (lines 80 to 81).  `n_layers` is a Python
int, so it is modelled as `Int`; `range(n_layers)` is `List.range` of its
`toNat` clamp. -/
def init (pr : Prims) (rnd : PKey → Nat → Nat → ℚ)
    (srcSeqLen srcVocabSize srcEmbedDim trgSeqLen trgVocabSize trgEmbedDim
     hiddenDim nullIdx startIdx endIdx : Nat)
    (attention : Bool) (nLayers : Int) (cellType : String) :
    Option (Config × Params) :=
  let ps : Params := []
  let ps := pset ps (.wEmbed .enc) (.m (randn pr rnd (.wEmbed .enc) srcVocabSize srcEmbedDim))
  let ps := pset ps (.wEmbed .dec) (.m (randn pr rnd (.wEmbed .dec) trgVocabSize trgEmbedDim))
  match dimMul cellType with
  | none => none
  | some m =>
    let ps := (List.range nLayers.toNat).foldl (initLayerParams pr rnd hiddenDim m) ps
    let ps := pset ps (.wx 0 .enc) (.m (randn pr rnd (.wx 0 .enc) srcEmbedDim (m * hiddenDim)))
    let ps := pset ps (.wx 0 .dec) (.m (randn pr rnd (.wx 0 .dec) trgEmbedDim (m * hiddenDim)))
    let m2 := if attention then 2 else 1
    let ps := pset ps .wOut (.m (randn pr rnd .wOut (m2 * hiddenDim) trgVocabSize))
    let ps := pset ps .bOut (.v (zerosV trgVocabSize))
    let ps := ps.map (fun kv => (kv.1, tcast pr.cast kv.2))
    some (⟨srcSeqLen, srcVocabSize, srcEmbedDim, trgSeqLen, trgVocabSize, trgEmbedDim,
           hiddenDim, nullIdx, startIdx, endIdx, attention, nLayers, cellType⟩, ps)

/-- Identity instantiation of the abstract primitives, used by witnesses. -/
def prId : Prims := ⟨id, id, id, id, id, id⟩

/-- Zero random source, used by witnesses. -/
def rnd0 : PKey → Nat → Nat → ℚ := fun _ _ _ => 0

/-! Forward pass.  The numpy primitives act row-wise on the batch
dimension, so every primitive below is the per-row function; the batch
versions are maps over the list of rows.  Parameters are fetched from the
dictionary; a missing key yields an empty tensor (the claims below hold for
every parameter dictionary, well-formed or not). -/

def getM (ps : Params) (k : PKey) : Mat :=
  match pget ps k with
  | some (.m A) => A
  | _ => []

def getV (ps : Params) (k : PKey) : Vec :=
  match pget ps k with
  | some (.v x) => x
  | _ => []

/-- Modelled from the spec (4.2): word embedding forward for one row of
token ids, a row lookup per timestep. -/
def word_embedding_forward_row (W : Mat) (ids : List Nat) : List Vec :=
  ids.map (fun t => W.getD t [])

/-- Modelled from the spec (4.3): one step of the plain recurrent cell,
next hidden is tanh of the affine pre-activation. -/
def rnnStep (pr : Prims) (Wx Wh : Mat) (b : Vec) (h x : Vec) : Vec :=
  (vadd (vadd (vecMat x Wx) (vecMat h Wh)) b).map pr.tanh

/-- Modelled from the spec (4.3, 4.5): the plain cell run across the whole
time sequence of one row, carrying the hidden state. -/
def recurrent_forward_row (pr : Prims) (Wx Wh : Mat) (b : Vec) : Vec → List Vec → List Vec
  | _, [] => []
  | h, x :: xs =>
    let h1 := rnnStep pr Wx Wh b h x
    h1 :: recurrent_forward_row pr Wx Wh b h1 xs

/-- One quarter chunk of the packed gate pre-activation vector. -/
def chunk4 (a : Vec) (j : Nat) : Vec :=
  (a.drop (j * (a.length / 4))).take (a.length / 4)

/-- Modelled from the spec (4.4): one step of the gated (lstm) cell; the
pre-activation is split into input gate, forget gate, output gate (sigmoid)
and candidate cell (tanh). -/
def lstmStep (pr : Prims) (Wx Wh : Mat) (b : Vec) (h c x : Vec) : Vec × Vec :=
  let a := vadd (vadd (vecMat x Wx) (vecMat h Wh)) b
  let gi := (chunk4 a 0).map pr.sigm
  let gf := (chunk4 a 1).map pr.sigm
  let go := (chunk4 a 2).map pr.sigm
  let gg := (chunk4 a 3).map pr.tanh
  let c1 := vadd (vmul gf c) (vmul gi gg)
  let h1 := vmul go (c1.map pr.tanh)
  (h1, c1)

/-- Modelled from the spec (4.4, 4.5): the gated cell run across the whole
time sequence of one row, carrying hidden and cell state. -/
def lstm_forward_row_aux (pr : Prims) (Wx Wh : Mat) (b : Vec) : Vec → Vec → List Vec → List Vec
  | _, _, [] => []
  | h, c, x :: xs =>
    let hc := lstmStep pr Wx Wh b h c x
    hc.1 :: lstm_forward_row_aux pr Wx Wh b hc.1 hc.2 xs

/-- The cell state starts at zero for each sequence and layer. -/
def lstm_forward_row (pr : Prims) (Wx Wh : Mat) (b : Vec) (h0 : Vec) (xs : List Vec) : List Vec :=
  lstm_forward_row_aux pr Wx Wh b h0 (zerosV h0.length) xs

/-- Dispatch on the cell-type string, as the source does inside both layer
loops; an unsupported string is unreachable after construction and is
modelled as the identity on the input sequence. -/
def seqFwdRow (pr : Prims) (cell : String) (Wx Wh : Mat) (b : Vec) (h0 : Vec)
    (xs : List Vec) : List Vec :=
  if cell = "rnn" then recurrent_forward_row pr Wx Wh b h0 xs
  else if cell = "lstm" then lstm_forward_row pr Wx Wh b h0 xs
  else xs

/-- Body of the encoder layer loop (lines 106 to 114): run layer i on the
current sequence with a zero initial state, and record the final-timestep
hidden state into the context buffer z. -/
def encLayerStep (cfg : Config) (pr : Prims) (ps : Params) (st : List Vec × List Vec)
    (i : Nat) : List Vec × List Vec :=
  let hEnc := seqFwdRow pr cfg.cellType (getM ps (.wx i .enc)) (getM ps (.wh i .enc))
    (getV ps (.bias i .enc)) (zerosV cfg.hiddenDim) st.1
  (hEnc, st.2 ++ [lastVec hEnc])

/-- The encoder layer loop: final layer output together with the collected
per-layer context z. -/
def encForwardRow (cfg : Config) (pr : Prims) (ps : Params) (srcEmb : List Vec) :
    List Vec × List Vec :=
  (List.range cfg.nLayers.toNat).foldl (encLayerStep cfg pr ps) (srcEmb, [])

/-- Output sequence of the encoder stack after the first k layers. -/
def encUpto (cfg : Config) (pr : Prims) (ps : Params) (srcEmb : List Vec) : Nat → List Vec
  | 0 => srcEmb
  | i + 1 => seqFwdRow pr cfg.cellType (getM ps (.wx i .enc)) (getM ps (.wh i .enc))
      (getV ps (.bias i .enc)) (zerosV cfg.hiddenDim) (encUpto cfg pr ps srcEmb i)

/-- Body of the decoder layer loop (lines 123 to 131): layer i is seeded
with the context entry of the same layer index, `h0 = z[:, i, :]`. -/
def decLayerStep (cfg : Config) (pr : Prims) (ps : Params) (z : List Vec)
    (hDec : List Vec) (i : Nat) : List Vec :=
  seqFwdRow pr cfg.cellType (getM ps (.wx i .dec)) (getM ps (.wh i .dec))
    (getV ps (.bias i .dec)) (z.getD i (zerosV cfg.hiddenDim)) hDec

/-- The decoder layer loop. -/
def decForwardRow (cfg : Config) (pr : Prims) (ps : Params) (z : List Vec)
    (trgEmb : List Vec) : List Vec :=
  (List.range cfg.nLayers.toNat).foldl (decLayerStep cfg pr ps z) trgEmb

/-- Output sequence of the decoder stack after the first k layers. -/
def decUpto (cfg : Config) (pr : Prims) (ps : Params) (z : List Vec) (trgEmb : List Vec) :
    Nat → List Vec
  | 0 => trgEmb
  | i + 1 => decLayerStep cfg pr ps z (decUpto cfg pr ps z trgEmb i) i

/-- Modelled from the spec (4.6, 4.8): softmax normalization of a score
vector. -/
def softmaxRow (pr : Prims) (s : Vec) : Vec :=
  let e := s.map pr.exp
  e.map (fun x => x / e.sum)

/-- Modelled from the spec (4.6): attention forward for one row; for every
decoder timestep, softmax-normalized inner-product scores against all
encoder states give the weights of a convex combination of encoder
states. -/
def temporal_attention_forward_row (pr : Prims) (hDec hEnc : List Vec) : List Vec :=
  hDec.map (fun hd =>
    let w := softmaxRow pr (hEnc.map (fun he => dot hd he))
    vsum ((hEnc.headD []).length) (List.zipWith smul w hEnc))

/-- Modelled from the spec (4.7): the affine output projection applied at
every timestep of one row. -/
def temporal_affine_forward_row (W : Mat) (b : Vec) (xs : List Vec) : List Vec :=
  xs.map (fun x => vadd (vecMat x W) b)

/-- All intermediates of `Seq2Seq._forward` for one row, the values the
source keeps in its cache tuple. -/
structure FwdCache where
  srcEmb : List Vec
  hEnc : List Vec
  z : List Vec
  trgEmb : List Vec
  hDec : List Vec
  attOut : List Vec
  decOut : List Vec

/-- Translation of `Seq2Seq._forward` (lines 84 to 146) for one row:
embed the source, run the encoder stack collecting the per-layer context,
embed the target, run the decoder stack seeded by the context, compute the
attention output (always computed, used only under the attention flag), and
concatenate it to the decoder states when attention is enabled. -/
def fwdCache (cfg : Config) (pr : Prims) (ps : Params) (srcRow trgRow : List Nat) :
    FwdCache :=
  let srcEmb := word_embedding_forward_row (getM ps (.wEmbed .enc)) srcRow
  let ez := encForwardRow cfg pr ps srcEmb
  let trgEmb := word_embedding_forward_row (getM ps (.wEmbed .dec)) trgRow
  let hDec := decForwardRow cfg pr ps ez.2 trgEmb
  let attOut := temporal_attention_forward_row pr hDec ez.1
  let decOut := if cfg.attention then List.zipWith (fun a b => a ++ b) hDec attOut else hDec
  ⟨srcEmb, ez.1, ez.2, trgEmb, hDec, attOut, decOut⟩

/-- Scores of `Seq2Seq._forward` for one row. -/
def forwardRow (cfg : Config) (pr : Prims) (ps : Params) (srcRow trgRow : List Nat) :
    List Vec :=
  temporal_affine_forward_row (getM ps .wOut) (getV ps .bOut)
    (fwdCache cfg pr ps srcRow trgRow).decOut

/-- Small concrete configuration used by witnesses: one layer, plain cell,
no attention. -/
def cfgW1 : Config := ⟨1, 2, 1, 1, 2, 1, 1, 0, 0, 0, false, 1, "rnn"⟩

/-! Backward pass.  The caches the source stores during `_forward` are
realized here by the forward intermediates (`encUpto`, `decUpto`, the
recomputed gate activations), which hold exactly the same values. -/

abbrev Grads := List (PKey × Tensor)

/-- Modelled from the spec (4.7): backward of the temporal affine map for
one row, input gradient per timestep plus weight and bias gradients summed
over time. -/
def temporal_affine_backward_row (W : Mat) (xs ds : List Vec) : List Vec × Mat × Vec :=
  (ds.map (fun d => W.map (fun row => dot row d)),
   (List.zipWith outerProd xs ds).foldr matAdd (zerosLike W),
   ds.foldr vadd (zerosV (colsOf W)))

/-- Modelled from the spec (4.6): backward of the attention for one row;
the score gradients are pushed through the softmax and distributed to both
decoder-state and encoder-state gradients; encoder-state gradients
accumulate across all decoder timesteps. -/
def temporal_attention_backward_row (pr : Prims) (dOut hDec hEnc : List Vec) :
    List Vec × List Vec :=
  let per := List.zipWith (fun (dt ht : Vec) =>
      let w := softmaxRow pr (hEnc.map (fun he => dot ht he))
      let dw := hEnc.map (fun he => dot dt he)
      let inner := (List.zipWith (fun a b => a * b) w dw).sum
      let dsc := List.zipWith (fun wi dwi => wi * (dwi - inner)) w dw
      (vsum ((hEnc.headD []).length) (List.zipWith smul dsc hEnc),
       (w.zip dsc).map (fun wd => vadd (smul wd.1 dt) (smul wd.2 ht))))
    dOut hDec
  (per.map (fun q => q.1),
   per.foldr (fun q acc => List.zipWith vadd q.2 acc) (hEnc.map (fun he => zerosV he.length)))

/-- Modelled from the spec (4.2): embedding backward for one row,
scatter-accumulating each upstream row into the matrix row addressed by its
token id (repeats accumulate). -/
def word_embedding_backward_row (W : Mat) (ids : List Nat) (dEmb : List Vec) : Mat :=
  (ids.zip dEmb).foldl (fun A td => A.set td.1 (vadd (A.getD td.1 []) td.2)) (zerosLike W)

/-- Modelled from the spec (4.3, 4.5): backward of the plain cell across
the time sequence of one row, reverse time order, returning per-timestep
input gradients, the initial-state gradient, and accumulated weight and
bias gradients. -/
def recurrent_backward_row (pr : Prims) (Wx Wh : Mat) (b : Vec) :
    Vec → List Vec → List Vec → List Vec × Vec × Mat × Mat × Vec
  | _, [], _ => ([], zerosV Wh.length, zerosLike Wx, zerosLike Wh, zerosV (colsOf Wx))
  | h, x :: xs, dhs =>
    let h1 := rnnStep pr Wx Wh b h x
    let r := recurrent_backward_row pr Wx Wh b h1 xs dhs.tail
    let dht := vadd (dhs.headD (zerosV Wh.length)) r.2.1
    let da := List.zipWith (fun dv hv => dv * (1 - hv * hv)) dht h1
    (Wx.map (fun row => dot row da) :: r.1,
     Wh.map (fun row => dot row da),
     matAdd r.2.2.1 (outerProd x da),
     matAdd r.2.2.2.1 (outerProd h da),
     vadd r.2.2.2.2 da)

/-- Modelled from the spec (4.4, 4.5): backward of the gated cell across
the time sequence of one row; the cell-state gradient accumulates both the
hidden-state path and the next timestep cell path.  Returns input
gradients, hidden carry, cell carry, and weight and bias gradients. -/
def lstm_backward_row_aux (pr : Prims) (Wx Wh : Mat) (b : Vec) :
    Vec → Vec → List Vec → List Vec → List Vec × Vec × Vec × Mat × Mat × Vec
  | _, _, [], _ =>
    ([], zerosV Wh.length, zerosV Wh.length, zerosLike Wx, zerosLike Wh, zerosV (colsOf Wx))
  | h, c, x :: xs, dhs =>
    let a := vadd (vadd (vecMat x Wx) (vecMat h Wh)) b
    let gi := (chunk4 a 0).map pr.sigm
    let gf := (chunk4 a 1).map pr.sigm
    let go := (chunk4 a 2).map pr.sigm
    let gg := (chunk4 a 3).map pr.tanh
    let c1 := vadd (vmul gf c) (vmul gi gg)
    let tc1 := c1.map pr.tanh
    let r := lstm_backward_row_aux pr Wx Wh b (vmul go tc1) c1 xs dhs.tail
    let dht := vadd (dhs.headD (zerosV Wh.length)) r.2.1
    let dgo := vmul dht tc1
    let dct := vadd r.2.2.1 (vmul (vmul dht go) (tc1.map (fun v => 1 - v * v)))
    let dgi := vmul dct gg
    let dgf := vmul dct c
    let dgg := vmul dct gi
    let dai := vmul dgi (gi.map (fun v => v * (1 - v)))
    let daf := vmul dgf (gf.map (fun v => v * (1 - v)))
    let dao := vmul dgo (go.map (fun v => v * (1 - v)))
    let dag := vmul dgg (gg.map (fun v => 1 - v * v))
    let da := dai ++ daf ++ dao ++ dag
    (Wx.map (fun row => dot row da) :: r.1,
     Wh.map (fun row => dot row da),
     vmul dct gf,
     matAdd r.2.2.2.1 (outerProd x da),
     matAdd r.2.2.2.2.1 (outerProd h da),
     vadd r.2.2.2.2.2 da)

/-- Top-level gated backward: the cell state starts at zero and its
initial-state gradient is discarded, as in the source unpacking. -/
def lstm_backward_row (pr : Prims) (Wx Wh : Mat) (b : Vec) (h0 : Vec)
    (xs dhs : List Vec) : List Vec × Vec × Mat × Mat × Vec :=
  let r := lstm_backward_row_aux pr Wx Wh b h0 (zerosV h0.length) xs dhs
  (r.1, r.2.1, r.2.2.2.1, r.2.2.2.2.1, r.2.2.2.2.2)

/-- Dispatch on the cell-type string, as in both backward loops of the
source. -/
def seqBackRow (pr : Prims) (cell : String) (Wx Wh : Mat) (b : Vec) (h0 : Vec)
    (xs dhs : List Vec) : List Vec × Vec × Mat × Mat × Vec :=
  if cell = "rnn" then recurrent_backward_row pr Wx Wh b h0 xs dhs
  else if cell = "lstm" then lstm_backward_row pr Wx Wh b h0 xs dhs
  else (dhs, zerosV Wh.length, zerosLike Wx, zerosLike Wh, zerosV (colsOf Wx))

/-- Translation of lines 170 to 178: when attention is on, the upstream
gradient is split at column H into the decoder-state part and the attention
part, the attention backward runs, and its decoder contribution is added;
when attention is off, the whole gradient flows to the decoder states and
the encoder-state gradient buffer is zero-initialized at shape
(src_seq_len, H). -/
def splitGradRow (cfg : Config) (pr : Prims) (fc : FwdCache) (dDecOut : List Vec) :
    List Vec × List Vec :=
  if cfg.attention then
    let dhd := dDecOut.map (fun v => v.take cfg.hiddenDim)
    let datt := dDecOut.map (fun v => v.drop cfg.hiddenDim)
    let de := temporal_attention_backward_row pr datt fc.hDec fc.hEnc
    (List.zipWith vadd dhd de.1, de.2)
  else (dDecOut, List.replicate cfg.srcSeqLen (zerosV cfg.hiddenDim))

/-- Backward of decoder layer i on a gradient stream: the cell backward
applied with the cached layer input `decUpto i` and the cached initial
state `z.getD i`. -/
def decBackLayer (cfg : Config) (pr : Prims) (ps : Params) (z trgEmb : List Vec)
    (i : Nat) (dh : List Vec) : List Vec × Vec × Mat × Mat × Vec :=
  seqBackRow pr cfg.cellType (getM ps (.wx i .dec)) (getM ps (.wh i .dec))
    (getV ps (.bias i .dec)) (z.getD i (zerosV cfg.hiddenDim))
    (decUpto cfg pr ps z trgEmb i) dh

/-- Body of the decoder backward loop (lines 181 to 192), at layer i: run
the layer backward on the carried gradient stream, record the weight
gradients, and accumulate the initial-state gradient dh0 into the
per-layer context-gradient buffer dz. -/
def decBackStep (cfg : Config) (pr : Prims) (ps : Params) (z trgEmb : List Vec)
    (st : List Vec × List Vec × Grads) (i : Nat) : List Vec × List Vec × Grads :=
  let r := decBackLayer cfg pr ps z trgEmb i st.1
  (r.1,
   st.2.1.set i (vadd (st.2.1.getD i (zerosV cfg.hiddenDim)) r.2.1),
   pset (pset (pset st.2.2 (.wx i .dec) (.m r.2.2.1)) (.wh i .dec) (.m r.2.2.2.1))
     (.bias i .dec) (.v r.2.2.2.2))

/-- The decoder backward loop, layers in reverse order, dz zero-initialized
to one hidden-width zero vector per layer. -/
def decBackRow (cfg : Config) (pr : Prims) (ps : Params) (z trgEmb : List Vec)
    (dhDec : List Vec) : List Vec × List Vec × Grads :=
  (List.range cfg.nLayers.toNat).reverse.foldl (decBackStep cfg pr ps z trgEmb)
    (dhDec, List.replicate cfg.nLayers.toNat (zerosV cfg.hiddenDim), [])

/-- Backward of encoder layer i on a gradient stream: the cell backward
applied with the cached layer input `encUpto i` and the zero initial
state. -/
def encBackLayer (cfg : Config) (pr : Prims) (ps : Params) (srcEmb : List Vec)
    (i : Nat) (dh : List Vec) : List Vec × Vec × Mat × Mat × Vec :=
  seqBackRow pr cfg.cellType (getM ps (.wx i .enc)) (getM ps (.wh i .enc))
    (getV ps (.bias i .enc)) (zerosV cfg.hiddenDim) (encUpto cfg pr ps srcEmb i) dh

/-- Body of the encoder backward loop (lines 198 to 208), at layer i: first
increment the final-timestep entry of the carried gradient stream by the
context-gradient buffer entry dz[i], then run the layer backward. -/
def encBackStep (cfg : Config) (pr : Prims) (ps : Params) (srcEmb : List Vec)
    (dz : List Vec) (st : List Vec × Grads) (i : Nat) : List Vec × Grads :=
  let r := encBackLayer cfg pr ps srcEmb i
    (addToLast st.1 (dz.getD i (zerosV cfg.hiddenDim)))
  (r.1,
   pset (pset (pset st.2 (.wx i .enc) (.m r.2.2.1)) (.wh i .enc) (.m r.2.2.2.1))
     (.bias i .enc) (.v r.2.2.2.2))

/-- The encoder backward loop, layers in reverse order. -/
def encBackRow (cfg : Config) (pr : Prims) (ps : Params) (srcEmb dz dhEnc : List Vec) :
    List Vec × Grads :=
  (List.range cfg.nLayers.toNat).reverse.foldl (encBackStep cfg pr ps srcEmb dz)
    (dhEnc, [])

/-- The two gradient streams leaving the projection/attention stage of
`_backward`: the decoder-state stream and the encoder-state stream. -/
def dhPair (cfg : Config) (pr : Prims) (ps : Params) (srcRow trgIn : List Nat)
    (dscores : List Vec) : List Vec × List Vec :=
  let fc := fwdCache cfg pr ps srcRow trgIn
  splitGradRow cfg pr fc
    (temporal_affine_backward_row (getM ps .wOut) fc.decOut dscores).1

/-- Translation of `Seq2Seq._backward` (lines 149 to 213) for one row. -/
def backwardRow (cfg : Config) (pr : Prims) (ps : Params) (srcRow trgIn : List Nat)
    (dscores : List Vec) : Grads :=
  let fc := fwdCache cfg pr ps srcRow trgIn
  let ab := temporal_affine_backward_row (getM ps .wOut) fc.decOut dscores
  let gsOut : Grads := [(.wOut, .m ab.2.1), (.bOut, .v ab.2.2)]
  let sg := dhPair cfg pr ps srcRow trgIn dscores
  let db := decBackRow cfg pr ps fc.z fc.trgEmb sg.1
  let gEmbDec : Grads :=
    [(.wEmbed .dec, .m (word_embedding_backward_row (getM ps (.wEmbed .dec)) trgIn db.1))]
  let eb := encBackRow cfg pr ps fc.srcEmb db.2.1 sg.2
  let gEmbEnc : Grads :=
    [(.wEmbed .enc, .m (word_embedding_backward_row (getM ps (.wEmbed .enc)) srcRow eb.1))]
  gsOut ++ db.2.2 ++ gEmbDec ++ eb.2 ++ gEmbEnc

/-! Loss. -/

/-- Modelled from the spec (4.8): per-row loss contributions of the masked
temporal softmax cross-entropy: summed negative log-likelihood over
unmasked positions and the count of unmasked positions. -/
def temporal_cross_entropy_row_stats (pr : Prims) (scores : List Vec) (ys : List Nat)
    (mask : List Bool) : ℚ × ℚ :=
  let per := List.zipWith (fun (s : Vec) (ym : Nat × Bool) =>
      (if ym.2 then -(pr.log ((softmaxRow pr s).getD ym.1 0)) else 0,
       if ym.2 then (1 : ℚ) else 0))
    scores (ys.zip mask)
  ((per.map (fun q => q.1)).sum, (per.map (fun q => q.2)).sum)

/-- Modelled from the spec (4.8): per-row score gradients of the masked
loss, zero at masked positions, scaled by the reciprocal unmasked count. -/
def temporal_cross_entropy_row_dscores (pr : Prims) (scores : List Vec) (ys : List Nat)
    (mask : List Bool) (invN : ℚ) : List Vec :=
  List.zipWith (fun (s : Vec) (ym : Nat × Bool) =>
      let p := softmaxRow pr s
      if ym.2 then
        List.zipWith (fun j pj => (pj - if j = ym.1 then 1 else 0) * invN)
          (List.range p.length) p
      else zerosV p.length)
    scores (ys.zip mask)

/-- Batch forward: the per-row pipeline mapped over the rows of the batch
(the numpy primitives act row-wise). -/
def forwardB (cfg : Config) (pr : Prims) (ps : Params) (src trgIn : List (List Nat)) :
    List (List Vec) :=
  (src.zip trgIn).map (fun rt => forwardRow cfg pr ps rt.1 rt.2)

/-- Modelled from the spec (4.8): the batch loss is the mean over unmasked
positions of the whole batch, and the score gradients are scaled by the
reciprocal of that shared count. -/
def temporal_cross_entropy_loss (pr : Prims) (scores : List (List Vec))
    (trgOut : List (List Nat)) (mask : List (List Bool)) : ℚ × List (List Vec) :=
  let stats := List.zipWith (fun s ym => temporal_cross_entropy_row_stats pr s ym.1 ym.2)
    scores (trgOut.zip mask)
  let num := (stats.map (fun q => q.1)).sum
  let cnt := (stats.map (fun q => q.2)).sum
  (num / cnt,
   List.zipWith (fun s ym => temporal_cross_entropy_row_dscores pr s ym.1 ym.2 (1 / cnt))
     scores (trgOut.zip mask))

def tensorAdd : Tensor → Tensor → Tensor
  | .v x, .v y => .v (vadd x y)
  | .m A, .m B => .m (matAdd A B)
  | t, _ => t

def gradsAdd (g1 g2 : Grads) : Grads :=
  List.zipWith (fun a b => (a.1, tensorAdd a.2 b.2)) g1 g2

/-- Batch backward: per-row backward, gradients summed across the batch
rows. -/
def backwardB (cfg : Config) (pr : Prims) (ps : Params) (src trgIn : List (List Nat))
    (dscores : List (List Vec)) : Grads :=
  match List.zipWith (fun rt d => backwardRow cfg pr ps rt.1 rt.2 d) (src.zip trgIn)
      dscores with
  | [] => []
  | g :: gs => gs.foldl gradsAdd g

/-- Translation of `Seq2Seq.loss` (lines 216 to 240): teacher-forced
decoder input is trg without its last column, the labels are trg without
its first column, the padding mask is labels different from null_idx, then
forward, masked loss, backward. -/
def loss (cfg : Config) (pr : Prims) (ps : Params) (src trg : List (List Nat)) :
    ℚ × Grads :=
  let trgIn := trg.map (fun r => r.dropLast)
  let trgOut := trg.map (fun r => r.drop 1)
  let scores := forwardB cfg pr ps src trgIn
  let mask := trgOut.map (fun r => r.map (fun y => decide (y ≠ cfg.nullIdx)))
  let ld := temporal_cross_entropy_loss pr scores trgOut mask
  (ld.1, backwardB cfg pr ps src trgIn ld.2)

/-- The mutable state of a `Seq2Seq` object: its configuration attributes
and its parameter dictionary, the fields `__init__` stores on `self`.
`loss`, `_forward` and `_backward` contain no assignment to `self` and
build the gradient dictionary from freshly allocated tensors, so the
threaded object state comes back unchanged from a `loss` call. -/
structure ModelState where
  cfg : Config
  params : Params

/-- The `loss` method call on a model object: the returned pair together
with the state of the object after the call. -/
def lossCall (pr : Prims) (st : ModelState) (src trg : List (List Nat)) :
    (ℚ × Grads) × ModelState :=
  (loss st.cfg pr st.params src trg, st)

/-- Per-row loss statistics as a function of the (src row, trg row) pair:
the composition `loss` applies to each batch row. -/
def rowLossStats (cfg : Config) (pr : Prims) (ps : Params)
    (rt : List Nat × List Nat) : ℚ × ℚ :=
  temporal_cross_entropy_row_stats pr
    (forwardRow cfg pr ps rt.1 rt.2.dropLast) (rt.2.drop 1)
    ((rt.2.drop 1).map (fun y => decide (y ≠ cfg.nullIdx)))

/-! A variant of the model that never computes the attention mechanism
(refinement target for the attention-disabled configuration). -/

/-- Modelled from the spec: forward for one row without ever invoking the
attention computation; the output projection applies to the decoder hidden
states alone. -/
def forwardRowNA (cfg : Config) (pr : Prims) (ps : Params) (srcRow trgRow : List Nat) :
    List Vec :=
  let srcEmb := word_embedding_forward_row (getM ps (.wEmbed .enc)) srcRow
  let ez := encForwardRow cfg pr ps srcEmb
  let trgEmb := word_embedding_forward_row (getM ps (.wEmbed .dec)) trgRow
  let hDec := decForwardRow cfg pr ps ez.2 trgEmb
  temporal_affine_forward_row (getM ps .wOut) (getV ps .bOut) hDec

/-- Modelled from the spec: backward for one row without the attention
branch; the whole projection gradient flows to the decoder states and the
encoder-state gradient starts as zeros. -/
def backwardRowNA (cfg : Config) (pr : Prims) (ps : Params) (srcRow trgIn : List Nat)
    (dscores : List Vec) : Grads :=
  let srcEmb := word_embedding_forward_row (getM ps (.wEmbed .enc)) srcRow
  let ez := encForwardRow cfg pr ps srcEmb
  let trgEmb := word_embedding_forward_row (getM ps (.wEmbed .dec)) trgIn
  let hDec := decForwardRow cfg pr ps ez.2 trgEmb
  let ab := temporal_affine_backward_row (getM ps .wOut) hDec dscores
  let gsOut : Grads := [(.wOut, .m ab.2.1), (.bOut, .v ab.2.2)]
  let db := decBackRow cfg pr ps ez.2 trgEmb ab.1
  let gEmbDec : Grads :=
    [(.wEmbed .dec, .m (word_embedding_backward_row (getM ps (.wEmbed .dec)) trgIn db.1))]
  let eb := encBackRow cfg pr ps srcEmb db.2.1
    (List.replicate cfg.srcSeqLen (zerosV cfg.hiddenDim))
  let gEmbEnc : Grads :=
    [(.wEmbed .enc, .m (word_embedding_backward_row (getM ps (.wEmbed .enc)) srcRow eb.1))]
  gsOut ++ db.2.2 ++ gEmbDec ++ eb.2 ++ gEmbEnc

/-- Batch forward of the attention-free variant. -/
def forwardBNA (cfg : Config) (pr : Prims) (ps : Params) (src trgIn : List (List Nat)) :
    List (List Vec) :=
  (src.zip trgIn).map (fun rt => forwardRowNA cfg pr ps rt.1 rt.2)

/-- Batch backward of the attention-free variant. -/
def backwardBNA (cfg : Config) (pr : Prims) (ps : Params) (src trgIn : List (List Nat))
    (dscores : List (List Vec)) : Grads :=
  match List.zipWith (fun rt d => backwardRowNA cfg pr ps rt.1 rt.2 d) (src.zip trgIn)
      dscores with
  | [] => []
  | g :: gs => gs.foldl gradsAdd g

/-- Loss of the attention-free variant. -/
def lossNA (cfg : Config) (pr : Prims) (ps : Params) (src trg : List (List Nat)) :
    ℚ × Grads :=
  let trgIn := trg.map (fun r => r.dropLast)
  let trgOut := trg.map (fun r => r.drop 1)
  let scores := forwardBNA cfg pr ps src trgIn
  let mask := trgOut.map (fun r => r.map (fun y => decide (y ≠ cfg.nullIdx)))
  let ld := temporal_cross_entropy_loss pr scores trgOut mask
  (ld.1, backwardBNA cfg pr ps src trgIn ld.2)

/-! Characterizations of the backward loops, used to state the
context-gradient accumulation claim. -/

/-- The initial-state gradient produced at decoder layer i when the reverse
decoder loop starts above layer k-1 with gradient stream dh. -/
def decDh0At (cfg : Config) (pr : Prims) (ps : Params) (z trgEmb : List Vec) :
    Nat → List Vec → Nat → Vec
  | 0, _, _ => []
  | k + 1, dh, i =>
    if i = k then (decBackLayer cfg pr ps z trgEmb k dh).2.1
    else decDh0At cfg pr ps z trgEmb k (decBackLayer cfg pr ps z trgEmb k dh).1 i

/-- The gradient stream the backward of encoder layer i receives (the
stream after its final-timestep entry was incremented by dz[i]), when the
reverse encoder loop starts above layer k-1 with stream dh. -/
def encIntake (cfg : Config) (pr : Prims) (ps : Params) (srcEmb dz : List Vec) :
    Nat → List Vec → Nat → List Vec
  | 0, _, _ => []
  | k + 1, dh, i =>
    if i = k then addToLast dh (dz.getD k (zerosV cfg.hiddenDim))
    else encIntake cfg pr ps srcEmb dz k
      (encBackLayer cfg pr ps srcEmb k (addToLast dh (dz.getD k (zerosV cfg.hiddenDim)))).1 i

/-- The gradient stream carried to (but not yet incremented at) encoder
layer i: the output of the backward of layer i+1 (or the initial
encoder-state gradient buffer when i is the top layer). -/
def encAbove (cfg : Config) (pr : Prims) (ps : Params) (srcEmb dz : List Vec) :
    Nat → List Vec → Nat → List Vec
  | 0, dh, _ => dh
  | k + 1, dh, i =>
    if i = k then dh
    else encAbove cfg pr ps srcEmb dz k
      (encBackLayer cfg pr ps srcEmb k (addToLast dh (dz.getD k (zerosV cfg.hiddenDim)))).1 i

/-- The context-gradient buffer dz as produced by the decoder backward loop
inside `backwardRow`. -/
def dzOf (cfg : Config) (pr : Prims) (ps : Params) (srcRow trgIn : List Nat)
    (dscores : List Vec) : List Vec :=
  (decBackRow cfg pr ps (fwdCache cfg pr ps srcRow trgIn).z
    (fwdCache cfg pr ps srcRow trgIn).trgEmb
    (dhPair cfg pr ps srcRow trgIn dscores).1).2.1

theorem pget_pset (ps : Params) (k k' : PKey) (t : Tensor) :
    pget (pset ps k t) k' = if k' = k then some t else pget ps k' := by
  simp only [pget, pset, List.find?_cons]
  by_cases h : k' = k
  · subst h; simp
  · have hd : (decide (k = k')) = false := by
      simp only [decide_eq_false_iff_not]
      exact fun hh => h hh.symm
    simp [hd, h]

theorem pget_map_tcast (ps : Params) (c : ℚ → ℚ) (k : PKey) :
    pget (ps.map (fun kv => (kv.1, tcast c kv.2))) k = (pget ps k).map (tcast c) := by
  induction ps with
  | nil => simp [pget]
  | cons kv ps ih =>
    by_cases h : kv.1 = k
    · simp [pget, List.find?_cons_of_pos, h]
    · unfold pget at ih ⊢
      rw [List.map_cons, List.find?_cons_of_neg _ (by simpa using h),
          List.find?_cons_of_neg _ (by simpa using h)]
      exact ih

theorem pget_initLayerParams_wx (pr : Prims) (rnd : PKey → Nat → Nat → ℚ) (H m : Nat)
    (ps : Params) (j i : Nat) (d : Dir) :
    pget (initLayerParams pr rnd H m ps j) (.wx i d) =
      if i = j then some (.m (randn pr rnd (.wx i d) H (m * H))) else pget ps (.wx i d) := by
  unfold initLayerParams
  by_cases h : i = j <;> cases d <;> simp [pget_pset, h]

theorem pget_initLayerParams_wh (pr : Prims) (rnd : PKey → Nat → Nat → ℚ) (H m : Nat)
    (ps : Params) (j i : Nat) (d : Dir) :
    pget (initLayerParams pr rnd H m ps j) (.wh i d) =
      if i = j then some (.m (randn pr rnd (.wh i d) H (m * H))) else pget ps (.wh i d) := by
  unfold initLayerParams
  by_cases h : i = j <;> cases d <;> simp [pget_pset, h]

theorem pget_initLayerParams_bias (pr : Prims) (rnd : PKey → Nat → Nat → ℚ) (H m : Nat)
    (ps : Params) (j i : Nat) (d : Dir) :
    pget (initLayerParams pr rnd H m ps j) (.bias i d) =
      if i = j then some (.v (zerosV (m * H))) else pget ps (.bias i d) := by
  unfold initLayerParams
  by_cases h : i = j <;> cases d <;> simp [pget_pset, h]

theorem pget_initLoop_wx (pr : Prims) (rnd : PKey → Nat → Nat → ℚ) (H m : Nat)
    (ps : Params) (n i : Nat) (d : Dir) :
    pget ((List.range n).foldl (initLayerParams pr rnd H m) ps) (.wx i d) =
      if i < n then some (.m (randn pr rnd (.wx i d) H (m * H)))
      else pget ps (.wx i d) := by
  induction n with
  | zero => simp
  | succ n ih =>
    rw [List.range_succ, List.foldl_append, List.foldl_cons, List.foldl_nil,
        pget_initLayerParams_wx]
    by_cases h : i = n
    · subst h; simp
    · rcases Nat.lt_or_ge i n with hlt | hge
      · simp [h, ih, hlt, Nat.lt_succ_of_lt hlt]
      · have h1 : ¬ i < n := Nat.not_lt.mpr hge
        have h2 : ¬ i < n + 1 := by omega
        simp [h, ih, h1, h2]

theorem pget_initLoop_wh (pr : Prims) (rnd : PKey → Nat → Nat → ℚ) (H m : Nat)
    (ps : Params) (n i : Nat) (d : Dir) :
    pget ((List.range n).foldl (initLayerParams pr rnd H m) ps) (.wh i d) =
      if i < n then some (.m (randn pr rnd (.wh i d) H (m * H)))
      else pget ps (.wh i d) := by
  induction n with
  | zero => simp
  | succ n ih =>
    rw [List.range_succ, List.foldl_append, List.foldl_cons, List.foldl_nil,
        pget_initLayerParams_wh]
    by_cases h : i = n
    · subst h; simp
    · rcases Nat.lt_or_ge i n with hlt | hge
      · simp [h, ih, hlt, Nat.lt_succ_of_lt hlt]
      · have h1 : ¬ i < n := Nat.not_lt.mpr hge
        have h2 : ¬ i < n + 1 := by omega
        simp [h, ih, h1, h2]

theorem pget_initLoop_bias (pr : Prims) (rnd : PKey → Nat → Nat → ℚ) (H m : Nat)
    (ps : Params) (n i : Nat) (d : Dir) :
    pget ((List.range n).foldl (initLayerParams pr rnd H m) ps) (.bias i d) =
      if i < n then some (.v (zerosV (m * H)))
      else pget ps (.bias i d) := by
  induction n with
  | zero => simp
  | succ n ih =>
    rw [List.range_succ, List.foldl_append, List.foldl_cons, List.foldl_nil,
        pget_initLayerParams_bias]
    by_cases h : i = n
    · subst h; simp
    · rcases Nat.lt_or_ge i n with hlt | hge
      · simp [h, ih, hlt, Nat.lt_succ_of_lt hlt]
      · have h1 : ¬ i < n := Nat.not_lt.mpr hge
        have h2 : ¬ i < n + 1 := by omega
        simp [h, ih, h1, h2]

theorem mkMat_length (g : Nat → Nat → ℚ) (r c : Nat) : (mkMat g r c).length = r := by
  simp [mkMat]

theorem mkMat_cols (g : Nat → Nat → ℚ) (r c : Nat) :
    ∀ row ∈ mkMat g r c, row.length = c := by
  intro row hrow
  simp only [mkMat, List.mem_map] at hrow
  obtain ⟨i, _, rfl⟩ := hrow
  simp

/-- C4 counterexample: the claim states construction succeeds for the
cell_type strings "plain" and "gated"; on the code the dict lookup
`dim_mul` accepts only "rnn" and "lstm", so construction with "plain" or
"gated" raises a KeyError (modelled as `none`). -/
theorem c4_counterexample :
    init prId rnd0 1 1 1 1 1 1 1 0 0 0 false 1 "plain" = none ∧
    init prId rnd0 1 1 1 1 1 1 1 0 0 0 false 1 "gated" = none := by
  constructor <;> rfl

/-- C4 (amended): construction succeeds exactly when cell_type is one of
the two supported kinds as spelled in the code, "rnn" (the plain cell) and
"lstm" (the gated cell), and fails with a configuration error (KeyError on
the dict lookup) for any other value. -/
theorem c4_supported_cell_types (pr : Prims) (rnd : PKey → Nat → Nat → ℚ)
    (sl sv se tl tv te hd ni si ei : Nat) (att : Bool) (nL : Int) (cell : String) :
    (init pr rnd sl sv se tl tv te hd ni si ei att nL cell).isSome = true ↔
      (cell = "rnn" ∨ cell = "lstm") := by
  unfold init dimMul
  by_cases h1 : cell = "lstm"
  · simp [h1]
  · by_cases h2 : cell = "rnn" <;> simp [h1, h2]

/-- C9 counterexample: the claim states that construction with a
non-positive n_layers fails fast; on the code `range(n_layers)` is simply
empty and construction succeeds, both for 0 and for -1. -/
theorem c9_counterexample :
    (init prId rnd0 1 1 1 1 1 1 1 0 0 0 false 0 "rnn").isSome = true ∧
    (init prId rnd0 1 1 1 1 1 1 1 0 0 0 false (-1) "rnn").isSome = true := by
  constructor <;> rfl

/-- C9 (amended): construction with a non-positive n_layers does not fail:
for a supported cell_type it silently succeeds, producing a parameter set
that still holds the layer-0 input weights (written unconditionally after
the loop) but no layer-0 hidden weights. -/
theorem c9_nonpositive_layers_accepted (pr : Prims) (rnd : PKey → Nat → Nat → ℚ)
    (sl sv se tl tv te hd ni si ei : Nat) (att : Bool) (nL : Int) (cell : String)
    (hcell : cell = "rnn" ∨ cell = "lstm") (hn : nL ≤ 0) :
    (init pr rnd sl sv se tl tv te hd ni si ei att nL cell).isSome = true ∧
    (init pr rnd sl sv se tl tv te hd ni si ei att nL cell).map
      (fun cfgps => (pget cfgps.2 (.wx 0 .enc)).isSome) = some true ∧
    (init pr rnd sl sv se tl tv te hd ni si ei att nL cell).map
      (fun cfgps => pget cfgps.2 (.wh 0 .enc)) = some none := by
  have hz : nL.toNat = 0 := Int.toNat_of_nonpos hn
  rcases hcell with h | h <;> subst h <;>
    refine ⟨by simp [init, dimMul, hz], ?_, ?_⟩ <;>
      simp [init, dimMul, hz, pget, pset, tcast]

theorem castRandn_length (pr : Prims) (c : ℚ → ℚ) (rnd : PKey → Nat → Nat → ℚ)
    (k : PKey) (r co : Nat) :
    ((randn pr rnd k r co).map (fun row => row.map c)).length = r := by
  simp [randn, mkMat]

theorem castRandn_cols (pr : Prims) (c : ℚ → ℚ) (rnd : PKey → Nat → Nat → ℚ)
    (k : PKey) (r co : Nat) :
    ∀ row ∈ (randn pr rnd k r co).map (fun row => row.map c), row.length = co := by
  intro row hrow
  simp only [List.mem_map] at hrow
  obtain ⟨r0, hr0, rfl⟩ := hrow
  rw [List.length_map]
  exact mkMat_cols _ _ _ r0 hr0

/-- C5: after construction, the layer-0 input-weight tensors have row
dimension equal to the embedding width (src for the encoder, trg for the
decoder) while input-weight tensors of every layer i >= 1 have row
dimension hidden_dim, and every input-weight, hidden-weight and bias tensor
has column dimension m * hidden_dim, where m is the per-cell-type width
multiplier (1 for the plain "rnn" cell, 4 for the gated "lstm" cell, as
named by `dimMul`). -/
theorem c5_weight_shapes (pr : Prims) (rnd : PKey → Nat → Nat → ℚ)
    (sl sv se tl tv te hd ni si ei : Nat) (att : Bool) (nL : Int) (cell : String)
    (cfg : Config) (ps : Params) (m : Nat)
    (hinit : init pr rnd sl sv se tl tv te hd ni si ei att nL cell = some (cfg, ps))
    (hm : dimMul cell = some m) (i : Nat) (d : Dir) (hi : (i : Int) < nL) :
    (∃ M, pget ps (.wx i d) = some (.m M) ∧
        M.length = (if i = 0 then (match d with | .enc => se | .dec => te) else hd) ∧
        ∀ row ∈ M, row.length = m * hd) ∧
    (∃ M, pget ps (.wh i d) = some (.m M) ∧ M.length = hd ∧
        ∀ row ∈ M, row.length = m * hd) ∧
    (∃ v, pget ps (.bias i d) = some (.v v) ∧ v.length = m * hd) := by
  have hi' : i < nL.toNat := by omega
  simp only [init, hm] at hinit
  simp only [Option.some.injEq, Prod.mk.injEq] at hinit
  obtain ⟨-, hps⟩ := hinit
  subst hps
  refine ⟨?_, ?_, ?_⟩
  · by_cases h0 : i = 0
    · subst h0
      cases d
      · refine ⟨(randn pr rnd (.wx 0 .enc) se (m * hd)).map (fun row => row.map pr.cast),
          ?_, ?_, ?_⟩
        · rw [pget_map_tcast]
          simp [pget_pset, tcast]
        · simp [randn, mkMat]
        · exact castRandn_cols _ _ _ _ _ _
      · refine ⟨(randn pr rnd (.wx 0 .dec) te (m * hd)).map (fun row => row.map pr.cast),
          ?_, ?_, ?_⟩
        · rw [pget_map_tcast]
          simp [pget_pset, tcast]
        · simp [randn, mkMat]
        · exact castRandn_cols _ _ _ _ _ _
    · refine ⟨(randn pr rnd (.wx i d) hd (m * hd)).map (fun row => row.map pr.cast),
        ?_, ?_, ?_⟩
      · rw [pget_map_tcast]
        simp [pget_pset, pget_initLoop_wx, h0, hi', tcast]
      · simp [h0, randn, mkMat]
      · exact castRandn_cols _ _ _ _ _ _
  · refine ⟨(randn pr rnd (.wh i d) hd (m * hd)).map (fun row => row.map pr.cast),
      ?_, ?_, ?_⟩
    · rw [pget_map_tcast]
      simp [pget_pset, pget_initLoop_wh, hi', tcast]
    · simp [randn, mkMat]
    · exact castRandn_cols _ _ _ _ _ _
  · refine ⟨(zerosV (m * hd)).map pr.cast, ?_, ?_⟩
    · rw [pget_map_tcast]
      simp [pget_pset, pget_initLoop_bias, hi', tcast]
    · simp [zerosV]

/-- C5 witness: a concrete two-layer lstm model, checked at layer 1 of the
encoder direction. -/
theorem c5_weight_shapes_witness :
    ∃ cfg ps, init prId rnd0 1 1 1 1 1 1 1 0 0 0 false 2 "lstm" = some (cfg, ps) ∧
      ((1 : Nat) : Int) < 2 ∧ dimMul "lstm" = some 4 ∧
      (∃ M, pget ps (.wx 1 .enc) = some (.m M) ∧ M.length = 1 ∧
        ∀ row ∈ M, row.length = 4) :=
  ⟨_, _, rfl, by decide, rfl,
    (c5_weight_shapes prId rnd0 1 1 1 1 1 1 1 0 0 0 false 2 "lstm" _ _ 4 rfl rfl 1
      .enc (by decide)).1⟩

/-- C6: after construction, W_out_dec has row dimension 2 * hidden_dim when
attention is enabled and hidden_dim otherwise, column dimension
trg_vocab_size, and b_out_dec has length trg_vocab_size. -/
theorem c6_output_projection_shape (pr : Prims) (rnd : PKey → Nat → Nat → ℚ)
    (sl sv se tl tv te hd ni si ei : Nat) (att : Bool) (nL : Int) (cell : String)
    (cfg : Config) (ps : Params)
    (hinit : init pr rnd sl sv se tl tv te hd ni si ei att nL cell = some (cfg, ps)) :
    (∃ M, pget ps .wOut = some (.m M) ∧
        M.length = (if att then 2 * hd else hd) ∧ ∀ row ∈ M, row.length = tv) ∧
    (∃ v, pget ps .bOut = some (.v v) ∧ v.length = tv) := by
  rcases hmm : dimMul cell with - | m
  · simp [init, hmm] at hinit
  · simp only [init, hmm] at hinit
    simp only [Option.some.injEq, Prod.mk.injEq] at hinit
    obtain ⟨-, hps⟩ := hinit
    subst hps
    refine ⟨⟨(randn pr rnd .wOut ((if att then 2 else 1) * hd) tv).map
        (fun row => row.map pr.cast), ?_, ?_, ?_⟩,
      ⟨(zerosV tv).map pr.cast, ?_, ?_⟩⟩
    · rw [pget_map_tcast]
      cases att <;> simp [pget_pset, tcast]
    · cases att <;> simp [randn, mkMat]
    · exact castRandn_cols _ _ _ _ _ _
    · rw [pget_map_tcast]
      simp [pget_pset, tcast]
    · simp [zerosV]

/-- C9 amended-claim witness at n_layers = 0 with the rnn cell. -/
theorem c9_witness :
    (("rnn" : String) = "rnn" ∨ ("rnn" : String) = "lstm") ∧ ((0 : Int) ≤ 0) ∧
    ((init prId rnd0 1 1 1 1 1 1 1 0 0 0 false 0 "rnn").isSome = true ∧
     (init prId rnd0 1 1 1 1 1 1 1 0 0 0 false 0 "rnn").map
       (fun cfgps => (pget cfgps.2 (.wx 0 .enc)).isSome) = some true ∧
     (init prId rnd0 1 1 1 1 1 1 1 0 0 0 false 0 "rnn").map
       (fun cfgps => pget cfgps.2 (.wh 0 .enc)) = some none) :=
  ⟨Or.inl rfl, by decide,
    c9_nonpositive_layers_accepted prId rnd0 1 1 1 1 1 1 1 0 0 0 false 0 "rnn"
      (Or.inl rfl) (by decide)⟩

/-- C6 witness: a concrete model with attention enabled. -/
theorem c6_output_projection_shape_witness :
    ∃ cfg ps, init prId rnd0 1 1 1 1 1 3 1 0 0 0 true 1 "rnn" = some (cfg, ps) ∧
      (∃ M, pget ps .wOut = some (.m M) ∧ M.length = 2 ∧ ∀ row ∈ M, row.length = 1) ∧
      (∃ v, pget ps .bOut = some (.v v) ∧ v.length = 1) :=
  ⟨_, _, rfl,
    c6_output_projection_shape prId rnd0 1 1 1 1 1 3 1 0 0 0 true 1 "rnn" _ _ rfl⟩

theorem range_foldl_succ {β : Type} (f : β → Nat → β) (st : β) (n : Nat) :
    (List.range (n + 1)).foldl f st = f ((List.range n).foldl f st) n := by
  rw [List.range_succ, List.foldl_append, List.foldl_cons, List.foldl_nil]

theorem encFold_fst (cfg : Config) (pr : Prims) (ps : Params) (srcEmb : List Vec)
    (n : Nat) :
    ((List.range n).foldl (encLayerStep cfg pr ps) (srcEmb, [])).1 =
      encUpto cfg pr ps srcEmb n := by
  induction n with
  | zero => rfl
  | succ n ih =>
    rw [range_foldl_succ, encUpto]
    show seqFwdRow pr cfg.cellType (getM ps (.wx n .enc)) (getM ps (.wh n .enc))
      (getV ps (.bias n .enc)) (zerosV cfg.hiddenDim)
      ((List.range n).foldl (encLayerStep cfg pr ps) (srcEmb, [])).1 = _
    rw [ih]

theorem encFold_snd (cfg : Config) (pr : Prims) (ps : Params) (srcEmb : List Vec)
    (n : Nat) :
    ((List.range n).foldl (encLayerStep cfg pr ps) (srcEmb, [])).2 =
      (List.range n).map (fun i => lastVec (encUpto cfg pr ps srcEmb (i + 1))) := by
  induction n with
  | zero => rfl
  | succ n ih =>
    rw [range_foldl_succ, List.range_succ, List.map_append, List.map_cons, List.map_nil]
    show ((List.range n).foldl (encLayerStep cfg pr ps) (srcEmb, [])).2 ++
        [lastVec (seqFwdRow pr cfg.cellType (getM ps (.wx n .enc)) (getM ps (.wh n .enc))
          (getV ps (.bias n .enc)) (zerosV cfg.hiddenDim)
          ((List.range n).foldl (encLayerStep cfg pr ps) (srcEmb, [])).1)] = _
    rw [ih, encFold_fst]
    rfl

theorem encForwardRow_fst (cfg : Config) (pr : Prims) (ps : Params) (srcEmb : List Vec) :
    (encForwardRow cfg pr ps srcEmb).1 = encUpto cfg pr ps srcEmb cfg.nLayers.toNat :=
  encFold_fst cfg pr ps srcEmb cfg.nLayers.toNat

theorem encForwardRow_snd (cfg : Config) (pr : Prims) (ps : Params) (srcEmb : List Vec) :
    (encForwardRow cfg pr ps srcEmb).2 =
      (List.range cfg.nLayers.toNat).map
        (fun i => lastVec (encUpto cfg pr ps srcEmb (i + 1))) :=
  encFold_snd cfg pr ps srcEmb cfg.nLayers.toNat

theorem decForwardRow_eq (cfg : Config) (pr : Prims) (ps : Params) (z : List Vec)
    (trgEmb : List Vec) :
    decForwardRow cfg pr ps z trgEmb = decUpto cfg pr ps z trgEmb cfg.nLayers.toNat := by
  unfold decForwardRow
  generalize cfg.nLayers.toNat = n
  induction n with
  | zero => rfl
  | succ n ih => rw [range_foldl_succ, decUpto, ih]

theorem getD_map_range {α : Type} (f : Nat → α) (n i : Nat) (d : α) (hi : i < n) :
    ((List.range n).map f).getD i d = f i := by
  simp [List.getD, List.getElem?_map, List.getElem?_range, hi]

/-- C2: for every layer index i in [0, n_layers), the context buffer z
collected by the encoder loop has exactly n_layers entries (both stacks
loop over the same n_layers), its entry i equals the final-timestep hidden
state of encoder layer i, and the decoder loop equals the layer-indexed
recursion `decUpto` over that same z, whose layer-i run is seeded with
`z.getD i` (thus the matching encoder layer terminus, a per-layer pairing
rather than a single shared vector). -/
theorem c2_per_layer_context_pairing (cfg : Config) (pr : Prims) (ps : Params)
    (srcEmb trgEmb : List Vec) (i : Nat) (hi : i < cfg.nLayers.toNat) :
    (encForwardRow cfg pr ps srcEmb).2.length = cfg.nLayers.toNat ∧
    (encForwardRow cfg pr ps srcEmb).2.getD i [] =
      lastVec (encUpto cfg pr ps srcEmb (i + 1)) ∧
    decForwardRow cfg pr ps (encForwardRow cfg pr ps srcEmb).2 trgEmb =
      decUpto cfg pr ps (encForwardRow cfg pr ps srcEmb).2 trgEmb cfg.nLayers.toNat := by
  refine ⟨?_, ?_, decForwardRow_eq _ _ _ _ _⟩
  · rw [encForwardRow_snd]; simp
  · rw [encForwardRow_snd, getD_map_range _ _ _ _ hi]

/-- C2 witness at a concrete one-layer model. -/
theorem c2_witness :
    0 < cfgW1.nLayers.toNat ∧
    ((encForwardRow cfgW1 prId [] [[1]]).2.length = cfgW1.nLayers.toNat ∧
     (encForwardRow cfgW1 prId [] [[1]]).2.getD 0 [] =
       lastVec (encUpto cfgW1 prId [] [[1]] 1) ∧
     decForwardRow cfgW1 prId [] (encForwardRow cfgW1 prId [] [[1]]).2 [[1]] =
       decUpto cfgW1 prId [] (encForwardRow cfgW1 prId [] [[1]]).2 [[1]]
         cfgW1.nLayers.toNat) :=
  ⟨by decide, c2_per_layer_context_pairing cfgW1 prId [] [[1]] [[1]] 0 (by decide)⟩

/-- C3: for every input pair (src, trg), `loss` uses trg with its last
column dropped as the teacher-forced decoder input, trg with its first
column dropped as the target labels, builds the padding mask as labels
different from null_idx, runs forward, the masked loss, and backward, and
returns the scalar loss together with the gradient mapping. -/
theorem c3_loss_teacher_forcing (cfg : Config) (pr : Prims) (ps : Params)
    (src trg : List (List Nat)) :
    loss cfg pr ps src trg =
      ((temporal_cross_entropy_loss pr
          (forwardB cfg pr ps src (trg.map (fun r => r.dropLast)))
          (trg.map (fun r => r.drop 1))
          ((trg.map (fun r => r.drop 1)).map
            (fun r => r.map (fun y => decide (y ≠ cfg.nullIdx))))).1,
       backwardB cfg pr ps src (trg.map (fun r => r.dropLast))
         (temporal_cross_entropy_loss pr
           (forwardB cfg pr ps src (trg.map (fun r => r.dropLast)))
           (trg.map (fun r => r.drop 1))
           ((trg.map (fun r => r.drop 1)).map
             (fun r => r.map (fun y => decide (y ≠ cfg.nullIdx))))).2) := rfl

/-- C8: a call to `loss` (its forward and backward passes included) leaves
every entry of the parameter mapping of the model unchanged: the object
state threaded through the call comes back identical, entry lookups
included. -/
theorem c8_params_unchanged (pr : Prims) (st : ModelState) (src trg : List (List Nat)) :
    (lossCall pr st src trg).2.params = st.params ∧
    (lossCall pr st src trg).2 = st ∧
    ∀ k, pget (lossCall pr st src trg).2.params k = pget st.params k :=
  ⟨rfl, rfl, fun _ => rfl⟩

theorem loss_stats_factor (cfg : Config) (pr : Prims) (ps : Params)
    (src trg : List (List Nat)) :
    List.zipWith (fun s ym => temporal_cross_entropy_row_stats pr s ym.1 ym.2)
      (forwardB cfg pr ps src (trg.map (fun r => r.dropLast)))
      ((trg.map (fun r => r.drop 1)).zip
        ((trg.map (fun r => r.drop 1)).map
          (fun r => r.map (fun y => decide (y ≠ cfg.nullIdx))))) =
      (src.zip trg).map (rowLossStats cfg pr ps) := by
  induction src generalizing trg with
  | nil => simp [forwardB]
  | cons s ss ih =>
    cases trg with
    | nil => simp [forwardB]
    | cons t ts =>
      simp only [List.map_cons, List.zip_cons_cons]
      rw [show forwardB cfg pr ps (s :: ss) (t.dropLast :: ts.map (fun r => r.dropLast)) =
          forwardRow cfg pr ps s t.dropLast ::
            forwardB cfg pr ps ss (ts.map (fun r => r.dropLast)) from rfl]
      rw [List.zipWith_cons_cons, ih ts]
      rfl

theorem loss_fst_factor (cfg : Config) (pr : Prims) (ps : Params)
    (src trg : List (List Nat)) :
    (loss cfg pr ps src trg).1 =
      (((src.zip trg).map (rowLossStats cfg pr ps)).map (fun q => q.1)).sum /
      (((src.zip trg).map (rowLossStats cfg pr ps)).map (fun q => q.2)).sum := by
  show (temporal_cross_entropy_loss pr
      (forwardB cfg pr ps src (trg.map (fun r => r.dropLast)))
      (trg.map (fun r => r.drop 1))
      ((trg.map (fun r => r.drop 1)).map
        (fun r => r.map (fun y => decide (y ≠ cfg.nullIdx))))).1 = _
  simp only [temporal_cross_entropy_loss]
  rw [loss_stats_factor]

/-- C7: the scalar loss is invariant under any identical rearrangement of
the batch rows of src and trg (stated for the paired row lists: any
permutation of the zipped rows leaves the loss unchanged, because the loss
factors through per-row statistics summed over the batch). -/
theorem c7_batch_permutation_invariance (cfg : Config) (pr : Prims) (ps : Params)
    (src trg src2 trg2 : List (List Nat))
    (h : (src.zip trg).Perm (src2.zip trg2)) :
    (loss cfg pr ps src trg).1 = (loss cfg pr ps src2 trg2).1 := by
  rw [loss_fst_factor, loss_fst_factor]
  have h1 := h.map (rowLossStats cfg pr ps)
  rw [List.Perm.sum_eq (h1.map (fun q => q.1)), List.Perm.sum_eq (h1.map (fun q => q.2))]

/-- C7 witness: swapping the two rows of a concrete batch leaves the loss
unchanged. -/
theorem c7_witness :
    (([[0], [1]] : List (List Nat)).zip ([[0, 1], [1, 0]] : List (List Nat))).Perm
      (([[1], [0]] : List (List Nat)).zip ([[1, 0], [0, 1]] : List (List Nat))) ∧
    (loss cfgW1 prId [] [[0], [1]] [[0, 1], [1, 0]]).1 =
      (loss cfgW1 prId [] [[1], [0]] [[1, 0], [0, 1]]).1 :=
  ⟨by decide, c7_batch_permutation_invariance cfgW1 prId [] _ _ _ _ (by decide)⟩

theorem forwardRow_no_attention (cfg : Config) (pr : Prims) (ps : Params)
    (srcRow trgRow : List Nat) (hatt : cfg.attention = false) :
    forwardRow cfg pr ps srcRow trgRow = forwardRowNA cfg pr ps srcRow trgRow := by
  simp [forwardRow, forwardRowNA, fwdCache, hatt]

theorem backwardRow_no_attention (cfg : Config) (pr : Prims) (ps : Params)
    (srcRow trgIn : List Nat) (dscores : List Vec) (hatt : cfg.attention = false) :
    backwardRow cfg pr ps srcRow trgIn dscores =
      backwardRowNA cfg pr ps srcRow trgIn dscores := by
  simp [backwardRow, backwardRowNA, dhPair, splitGradRow, fwdCache, hatt]

/-- C10: when attention is disabled the scores of forward, and hence the
loss and the gradients, are identical to those of the variant that never
computes the attention mechanism at all; the attention output, although
computed on every forward call, is discarded and the output projection
applies to the decoder states alone. -/
theorem c10_no_attention_refinement (cfg : Config) (pr : Prims) (ps : Params)
    (srcRow trgRow : List Nat) (src trg : List (List Nat))
    (hatt : cfg.attention = false) :
    forwardRow cfg pr ps srcRow trgRow = forwardRowNA cfg pr ps srcRow trgRow ∧
    loss cfg pr ps src trg = lossNA cfg pr ps src trg := by
  have hfB : ∀ (s t : List (List Nat)),
      forwardB cfg pr ps s t = forwardBNA cfg pr ps s t := by
    intro s t
    unfold forwardB forwardBNA
    congr 1
    funext rt
    exact forwardRow_no_attention cfg pr ps rt.1 rt.2 hatt
  have hbB : ∀ (s t : List (List Nat)) (d : List (List Vec)),
      backwardB cfg pr ps s t d = backwardBNA cfg pr ps s t d := by
    intro s t d
    unfold backwardB backwardBNA
    congr 2
    funext rt dd
    exact backwardRow_no_attention cfg pr ps rt.1 rt.2 dd hatt
  exact ⟨forwardRow_no_attention cfg pr ps srcRow trgRow hatt, by
    unfold loss lossNA
    simp only [hfB, hbB]⟩

/-- C10 witness at a concrete attention-free model. -/
theorem c10_witness :
    cfgW1.attention = false ∧
    (forwardRow cfgW1 prId [] [0] [1] = forwardRowNA cfgW1 prId [] [0] [1] ∧
     loss cfgW1 prId [] [[0]] [[1, 0]] = lossNA cfgW1 prId [] [[0]] [[1, 0]]) :=
  ⟨rfl, c10_no_attention_refinement cfgW1 prId [] [0] [1] [[0]] [[1, 0]] rfl⟩

theorem revRange_foldl_succ {β : Type} (f : β → Nat → β) (st : β) (n : Nat) :
    ((List.range (n + 1)).reverse).foldl f st = ((List.range n).reverse).foldl f (f st n) := by
  rw [List.range_succ, List.reverse_append]
  rfl

theorem getD_set_self {α : Type} (l : List α) (i : Nat) (v d : α) (h : i < l.length) :
    (l.set i v).getD i d = v := by
  induction l generalizing i with
  | nil => simp at h
  | cons a l ih =>
    cases i with
    | zero => rfl
    | succ i => exact ih i (by simpa using h)

theorem getD_set_ne {α : Type} (l : List α) (i j : Nat) (v d : α) (h : j ≠ i) :
    (l.set i v).getD j d = l.getD j d := by
  induction l generalizing i j with
  | nil => rfl
  | cons a l ih =>
    cases i with
    | zero =>
      cases j with
      | zero => exact absurd rfl h
      | succ j => rfl
    | succ i =>
      cases j with
      | zero => rfl
      | succ j => exact ih i j (fun hh => h (by rw [hh]))

theorem getD_replicate {α : Type} (n i : Nat) (x d : α) (h : i < n) :
    (List.replicate n x).getD i d = x := by
  induction n generalizing i with
  | zero => omega
  | succ n ih =>
    cases i with
    | zero => rfl
    | succ i => exact ih i (by omega)

theorem decBackFold_dz_high (cfg : Config) (pr : Prims) (ps : Params)
    (z trgEmb : List Vec) (k i : Nat) :
    ∀ (dh dz : List Vec) (gs : Grads), k ≤ i →
      (((List.range k).reverse.foldl (decBackStep cfg pr ps z trgEmb) (dh, dz, gs)).2.1).getD
          i (zerosV cfg.hiddenDim) = dz.getD i (zerosV cfg.hiddenDim) := by
  induction k with
  | zero => intro dh dz gs _; rfl
  | succ k ih =>
    intro dh dz gs hik
    rw [revRange_foldl_succ]
    simp only [decBackStep]
    rw [ih _ _ _ (by omega)]
    exact getD_set_ne _ _ _ _ _ (by omega)

theorem decBackFold_dz (cfg : Config) (pr : Prims) (ps : Params)
    (z trgEmb : List Vec) (k i : Nat) :
    ∀ (dh dz : List Vec) (gs : Grads), i < k → k ≤ dz.length →
      (((List.range k).reverse.foldl (decBackStep cfg pr ps z trgEmb) (dh, dz, gs)).2.1).getD
          i (zerosV cfg.hiddenDim) =
        vadd (dz.getD i (zerosV cfg.hiddenDim)) (decDh0At cfg pr ps z trgEmb k dh i) := by
  induction k with
  | zero => intro dh dz gs h _; omega
  | succ k ih =>
    intro dh dz gs hik hk
    rw [revRange_foldl_succ]
    simp only [decBackStep]
    by_cases h : i = k
    · subst h
      rw [decBackFold_dz_high cfg pr ps z trgEmb i i _ _ _ (le_refl i)]
      rw [getD_set_self _ _ _ _ (by omega)]
      simp [decDh0At]
    · rw [ih _ _ _ (by omega) (by rw [List.length_set]; omega)]
      rw [getD_set_ne _ _ _ _ _ h]
      simp only [decDh0At, if_neg h]

theorem encIntake_eq_addToLast (cfg : Config) (pr : Prims) (ps : Params)
    (srcEmb dz : List Vec) (k i : Nat) :
    ∀ dh, i < k →
      encIntake cfg pr ps srcEmb dz k dh i =
        addToLast (encAbove cfg pr ps srcEmb dz k dh i)
          (dz.getD i (zerosV cfg.hiddenDim)) := by
  induction k with
  | zero => intro dh h; omega
  | succ k ih =>
    intro dh hik
    by_cases h : i = k
    · subst h; simp [encIntake, encAbove]
    · simp only [encIntake, encAbove, if_neg h]
      exact ih _ (by omega)

theorem encBackFold_gs_high (cfg : Config) (pr : Prims) (ps : Params)
    (srcEmb dz : List Vec) (k i : Nat) (d : Dir) :
    ∀ (dh : List Vec) (gs : Grads), k ≤ i →
      pget (((List.range k).reverse.foldl (encBackStep cfg pr ps srcEmb dz) (dh, gs)).2)
          (.wx i d) = pget gs (.wx i d) := by
  induction k with
  | zero => intro dh gs _; rfl
  | succ k ih =>
    intro dh gs hik
    rw [revRange_foldl_succ]
    simp only [encBackStep]
    rw [ih _ _ (by omega)]
    have hne : i ≠ k := by omega
    simp [pget_pset, hne]

theorem encBackFold_gs (cfg : Config) (pr : Prims) (ps : Params)
    (srcEmb dz : List Vec) (k i : Nat) :
    ∀ (dh : List Vec) (gs : Grads), i < k →
      pget (((List.range k).reverse.foldl (encBackStep cfg pr ps srcEmb dz) (dh, gs)).2)
          (.wx i .enc) =
        some (.m (encBackLayer cfg pr ps srcEmb i
          (encIntake cfg pr ps srcEmb dz k dh i)).2.2.1) := by
  induction k with
  | zero => intro dh gs h; omega
  | succ k ih =>
    intro dh gs hik
    rw [revRange_foldl_succ]
    simp only [encBackStep]
    by_cases h : i = k
    · subst h
      rw [encBackFold_gs_high cfg pr ps srcEmb dz i i .enc _ _ (le_refl i)]
      simp [pget_pset, encIntake]
    · rw [ih _ _ (by omega)]
      simp only [encIntake, if_neg h]

theorem dhPair_no_attention (cfg : Config) (pr : Prims) (ps : Params)
    (srcRow trgIn : List Nat) (dscores : List Vec) (hatt : cfg.attention = false) :
    (dhPair cfg pr ps srcRow trgIn dscores).2 =
      List.replicate cfg.srcSeqLen (zerosV cfg.hiddenDim) := by
  simp [dhPair, splitGradRow, hatt]

/-- C1: in backward, for every layer index i taken in reverse order, the
gradient of decoder layer i's initial hidden state is accumulated into the
zero-initialized per-layer context-gradient buffer dz (first conjunct), the
stream received by encoder layer i's own backward is the carried stream
with its final-timestep entry incremented by exactly dz[i] (second
conjunct), the gradients recorded for encoder layer i are computed from
that incremented stream, so the increment happens before the layer backward
runs (third conjunct), and when attention is disabled the encoder-state
gradient buffer is all zeros before these increments (fourth conjunct). -/
theorem c1_context_gradient_accumulation (cfg : Config) (pr : Prims) (ps : Params)
    (srcRow trgIn : List Nat) (dscores : List Vec) (i : Nat)
    (hi : i < cfg.nLayers.toNat) :
    (dzOf cfg pr ps srcRow trgIn dscores).getD i (zerosV cfg.hiddenDim) =
      vadd (zerosV cfg.hiddenDim)
        (decDh0At cfg pr ps (fwdCache cfg pr ps srcRow trgIn).z
          (fwdCache cfg pr ps srcRow trgIn).trgEmb cfg.nLayers.toNat
          (dhPair cfg pr ps srcRow trgIn dscores).1 i) ∧
    encIntake cfg pr ps (fwdCache cfg pr ps srcRow trgIn).srcEmb
        (dzOf cfg pr ps srcRow trgIn dscores) cfg.nLayers.toNat
        (dhPair cfg pr ps srcRow trgIn dscores).2 i =
      addToLast
        (encAbove cfg pr ps (fwdCache cfg pr ps srcRow trgIn).srcEmb
          (dzOf cfg pr ps srcRow trgIn dscores) cfg.nLayers.toNat
          (dhPair cfg pr ps srcRow trgIn dscores).2 i)
        ((dzOf cfg pr ps srcRow trgIn dscores).getD i (zerosV cfg.hiddenDim)) ∧
    pget (encBackRow cfg pr ps (fwdCache cfg pr ps srcRow trgIn).srcEmb
        (dzOf cfg pr ps srcRow trgIn dscores)
        (dhPair cfg pr ps srcRow trgIn dscores).2).2 (.wx i .enc) =
      some (.m (encBackLayer cfg pr ps (fwdCache cfg pr ps srcRow trgIn).srcEmb i
        (encIntake cfg pr ps (fwdCache cfg pr ps srcRow trgIn).srcEmb
          (dzOf cfg pr ps srcRow trgIn dscores) cfg.nLayers.toNat
          (dhPair cfg pr ps srcRow trgIn dscores).2 i)).2.2.1) ∧
    (cfg.attention = false →
      (dhPair cfg pr ps srcRow trgIn dscores).2 =
        List.replicate cfg.srcSeqLen (zerosV cfg.hiddenDim)) := by
  refine ⟨?_, ?_, ?_, fun hatt => dhPair_no_attention cfg pr ps srcRow trgIn dscores hatt⟩
  · unfold dzOf decBackRow
    rw [decBackFold_dz cfg pr ps _ _ cfg.nLayers.toNat i _ _ _ hi (by simp)]
    rw [getD_replicate _ _ _ _ hi]
  · exact encIntake_eq_addToLast cfg pr ps _ _ cfg.nLayers.toNat i _ hi
  · exact encBackFold_gs cfg pr ps _ _ cfg.nLayers.toNat i _ _ hi

/-- C1 witness at a concrete one-layer attention-free model. -/
theorem c1_witness :
    0 < cfgW1.nLayers.toNat ∧
    ((dzOf cfgW1 prId [] [0] [0] [[1]]).getD 0 (zerosV cfgW1.hiddenDim) =
      vadd (zerosV cfgW1.hiddenDim)
        (decDh0At cfgW1 prId [] (fwdCache cfgW1 prId [] [0] [0]).z
          (fwdCache cfgW1 prId [] [0] [0]).trgEmb cfgW1.nLayers.toNat
          (dhPair cfgW1 prId [] [0] [0] [[1]]).1 0) ∧
     encIntake cfgW1 prId [] (fwdCache cfgW1 prId [] [0] [0]).srcEmb
        (dzOf cfgW1 prId [] [0] [0] [[1]]) cfgW1.nLayers.toNat
        (dhPair cfgW1 prId [] [0] [0] [[1]]).2 0 =
      addToLast
        (encAbove cfgW1 prId [] (fwdCache cfgW1 prId [] [0] [0]).srcEmb
          (dzOf cfgW1 prId [] [0] [0] [[1]]) cfgW1.nLayers.toNat
          (dhPair cfgW1 prId [] [0] [0] [[1]]).2 0)
        ((dzOf cfgW1 prId [] [0] [0] [[1]]).getD 0 (zerosV cfgW1.hiddenDim)) ∧
     pget (encBackRow cfgW1 prId [] (fwdCache cfgW1 prId [] [0] [0]).srcEmb
        (dzOf cfgW1 prId [] [0] [0] [[1]])
        (dhPair cfgW1 prId [] [0] [0] [[1]]).2).2 (.wx 0 .enc) =
      some (.m (encBackLayer cfgW1 prId [] (fwdCache cfgW1 prId [] [0] [0]).srcEmb 0
        (encIntake cfgW1 prId [] (fwdCache cfgW1 prId [] [0] [0]).srcEmb
          (dzOf cfgW1 prId [] [0] [0] [[1]]) cfgW1.nLayers.toNat
          (dhPair cfgW1 prId [] [0] [0] [[1]]).2 0)).2.2.1) ∧
     (cfgW1.attention = false →
       (dhPair cfgW1 prId [] [0] [0] [[1]]).2 =
         List.replicate cfgW1.srcSeqLen (zerosV cfgW1.hiddenDim))) :=
  ⟨by decide, c1_context_gradient_accumulation cfgW1 prId [] [0] [0] [[1]] 0 (by decide)⟩

end Seq2Seq
